import Mathlib

/-!
Verification development for the `TFImageDetection` pipe element of
`ambianic-edge` (`src/ambianic/pipeline/ai/image_detection.py`).

The Python source is shallowly embedded: pure fragments become Lean
functions, Python exceptions become `Except` error values, Python dicts
become insertion-ordered association lists (the semantics of Python 3.7+
dicts), PIL images become a structure with a size and a total pixel map,
and the numpy tensors returned by the external inference engine become
total maps from index to value.  All fractional arithmetic is over `ℚ`
(the Python source uses IEEE doubles; none of the verified properties
depend on rounding of division, only on order and field identities).
-/

deriving instance DecidableEq for Except

namespace Ambianic

/-! ### Python string helpers

`isPySpace` models the ASCII part of Python's `\s` character class and of
`str.strip()`'s default whitespace set (the label files are ASCII; Unicode
whitespace/digits are outside the modelled domain). -/

def isPySpace (c : Char) : Bool :=
  c = ' ' || c = '\t' || c = '\n' || c = '\r' || c = '\x0b' || c = '\x0c'

/-- Python `str.strip()`: remove whitespace from both ends. -/
def pyStrip (s : List Char) : List Char :=
  ((s.dropWhile isPySpace).reverse.dropWhile isPySpace).reverse

/-- Python `int(...)` applied to a non-empty string of ASCII digits. -/
def digitsToNat (ds : List Char) : ℕ :=
  ds.foldl (fun n c => 10 * n + (c.toNat - '0'.toNat)) 0

/-- One application of `re.compile(r'\s*(\d+)(.+)').match(line)`, returning
`groups()` on success: leading whitespace is skipped, a maximal run of
digits is captured, and `(.+)` captures the following characters up to a
newline.  `re` backtracking is modelled: when the digit run is followed
directly by a newline or the end of the line, the regex gives the last
digit of the run back to the `(.+)` group; a single digit followed by
newline/end does not match at all.  `None` (leading to Python's
`AttributeError` on `.groups()`) is `none`. -/
def matchLine (line : List Char) : Option (List Char × List Char) :=
  let rest0 := line.dropWhile isPySpace
  let ds := rest0.takeWhile Char.isDigit
  let rest1 := rest0.dropWhile Char.isDigit
  if ds.isEmpty then none
  else
    let text := rest1.takeWhile (fun c => c ≠ '\n')
    if text.isEmpty then
      if 2 ≤ ds.length then some (ds.dropLast, [ds.getLastD '0']) else none
    else some (ds, text)

/-! ### Python dict model

Python 3.7+ dicts are insertion ordered; assigning to an existing key
updates the value in place, assigning to a fresh key appends.  `len` is
the number of entries and lookup raises `KeyError` on a missing key
(modelled as `none`).  Keys produced by `load_labels` are naturals, but
`detect` indexes the dict with a possibly negative `int(label_codes[0,i])`,
so lookup takes an integer key. -/

abbrev LabelDict := List (ℕ × List Char)

def dictInsert (d : LabelDict) (k : ℕ) (v : List Char) : LabelDict :=
  if d.any (fun p => p.1 == k) then
    d.map (fun p => if p.1 == k then (k, v) else p)
  else d ++ [(k, v)]

def dictLookup (d : LabelDict) (k : ℤ) : Option (List Char) :=
  (d.find? (fun p => ((p.1 : ℤ) == k))).map (·.2)

/-- Failure modes of `load_labels`.  The code itself can only raise
`AttributeError` (from `p.match(line)` returning `None` and `.groups()`
being taken on it).  `formatError` is the dedicated format-error failure
the specification postulates; it exists in the model only so that the
spec's statement can be expressed, and no modelled code path produces
it. -/
inductive LoadErr where
  | formatError
  | attributeError
deriving DecidableEq

/-- The loop of `load_labels`: the generator
`(p.match(line).groups() for line in f.readlines())` is consumed in order
by the dict comprehension `{int(num): text.strip() for num, text in lines}`;
the first non-matching line raises `AttributeError` out of the whole call. -/
def loadGo : List (List Char) → LabelDict → Except LoadErr LabelDict
  | [], d => .ok d
  | l :: ls, d =>
    match matchLine l with
    | none => .error .attributeError
    | some (num, text) => loadGo ls (dictInsert d (digitsToNat num) (pyStrip text))

/-- `TFImageDetection.load_labels`, applied to the lines of the label
resource (as produced by `f.readlines()`, i.e. with trailing newlines
kept). -/
def load_labels (lines : List (List Char)) : Except LoadErr LabelDict :=
  loadGo lines []

/-! ### PIL image model

A PIL image is a size plus pixel data; the pipeline only ever creates new
images (`copy`, `thumbnail` on a copy, `ImageOps.expand`), so the
embedding is purely functional and "does not modify the original image"
holds by construction.  Pixel values are abstracted to one `ℕ` sample per
coordinate (channel structure is irrelevant to every claim). -/

structure PImage where
  width : ℕ
  height : ℕ
  pix : ℕ → ℕ → ℕ

/-- `round_aspect(number, key)` from PIL `Image.thumbnail` (Pillow ≥ 7):
`max(min(math.floor(number), math.ceil(number), key=key), 1)`, where
Python's binary `min` with a key returns the first argument on ties. -/
def roundAspect (number : ℚ) (key : ℤ → ℚ) : ℤ :=
  max (if key ⌊number⌋ ≤ key ⌈number⌉ then ⌊number⌋ else ⌈number⌉) 1

/-- The size computation of PIL `Image.thumbnail((tw, th))` for an image
of size `iw × ih`: if the image already fits the target the image is left
unchanged; otherwise exactly one dimension is recomputed from the aspect
ratio `iw / ih`. -/
def thumbnailSize (iw ih tw th : ℕ) : ℕ × ℕ :=
  if iw ≤ tw ∧ ih ≤ th then (iw, ih)
  else
    let aspect : ℚ := (iw : ℚ) / (ih : ℚ)
    if aspect ≤ (tw : ℚ) / (th : ℚ) then
      ((roundAspect ((th : ℚ) * aspect) (fun n => |aspect - (n : ℚ) / (th : ℚ)|)).toNat, th)
    else
      (tw, (roundAspect ((tw : ℚ) / aspect)
        (fun n => if n = 0 then 0 else |aspect - (tw : ℚ) / (n : ℚ)|)).toNat)

/-- PIL `Image.thumbnail` on a copy of `img` (as `TFImageDetection.thumbnail`
calls it): the size is `thumbnailSize`; when the size changes the pixels
are resampled (the BICUBIC kernel is abstracted by coordinate scaling —
no claim concerns resampled pixel values). -/
def pilThumbnail (img : PImage) (tw th : ℕ) : PImage :=
  let s := thumbnailSize img.width img.height tw th
  if s = (img.width, img.height) then img
  else
    { width := s.1
      height := s.2
      pix := fun x y => img.pix (x * img.width / s.1) (y * img.height / s.2) }

/-- `PIL.ImageOps.expand(image, (left, top, right, bottom))` with the
default black fill: a new image with the border added and the original
pasted at offset `(left, top)`. -/
def expand (img : PImage) (left top right bottom : ℕ) : PImage :=
  { width := left + img.width + right
    height := top + img.height + bottom
    pix := fun x y =>
      if left ≤ x ∧ x < left + img.width ∧ top ≤ y ∧ y < top + img.height then
        img.pix (x - left) (y - top)
      else 0 }

/-- `TFImageDetection.resize`: pad a copy of the image on the right and
bottom with `delta_w = desired_w - w`, `delta_h = desired_h - h` (the
caller guarantees the image fits inside the desired size, so the natural
subtraction agrees with Python's). -/
def resize (img : PImage) (desired : ℕ × ℕ) : PImage :=
  expand img 0 0 (desired.1 - img.width) (desired.2 - img.height)

/-! ### Desired-size normalization in `TFImageDetection.thumbnail`

`thumbnail` unpacks `w, h = desired_size` and, only when `w` is a
`np.generic`, converts *both* dimensions via `.item()` then `int(...)`.
A plain Python `int` has no `.item()` method, so when `w` is a numpy
scalar and `h` a plain int the conversion raises `AttributeError`, which
the surrounding `try/except` turns into a `RuntimeError` whose message
carries the original `desired_size` and `type(w)`, `type(h)` as they are
at the moment of failure. -/

inductive PyType where
  | npGeneric
  | pyInt
deriving DecidableEq

/-- A dimension value as it arrives at `thumbnail`: either a numpy scalar
(`np.generic`) or a plain Python `int`. -/
inductive PyNum where
  | npgeneric (v : ℤ)
  | pyint (v : ℤ)
deriving DecidableEq

def PyNum.typeOf : PyNum → PyType
  | .npgeneric _ => .npGeneric
  | .pyint _ => .pyInt

def PyNum.val : PyNum → ℤ
  | .npgeneric v => v
  | .pyint v => v

/-- Errors a `detect` call can surface.  `runtimeError` is the
`RuntimeError` raised by `thumbnail`'s `except` block; it records the
message's content: the offending `desired_size` and the declared types of
`w` and `h` at failure time.  `keyError` is Python's `KeyError` from
`self._labels[li]`.  `zeroDivisionError` models `w_factor`/`h_factor`
division by a zero-sized padded image. -/
inductive DetectErr where
  | runtimeError (desired : PyNum × PyNum) (wType hType : PyType)
  | keyError (code : ℤ)
  | zeroDivisionError
deriving DecidableEq

/-- The `try` block of `TFImageDetection.thumbnail` before the PIL call:
`if isinstance(w, np.generic): w = int(w.item()); h = int(h.item())`.
When `w` is a plain int nothing is converted (a numpy `h` passes through
unchanged); when `w` is numpy and `h` plain, `h.item()` raises
`AttributeError` (at which point `w` has already become a plain int) and
the handler raises `RuntimeError` with the original desired size and the
current `type(w)`, `type(h)`. -/
def normalizeDims (w h : PyNum) : Except DetectErr (PyNum × PyNum) :=
  match w with
  | .npgeneric v =>
    match h with
    | .npgeneric u => .ok (.pyint v, .pyint u)
    | .pyint _ => .error (.runtimeError (w, h) .pyInt .pyInt)
  | .pyint _ => .ok (w, h)

/-- `TFImageDetection.thumbnail`: copy the image, normalize the desired
size, and apply PIL `Image.thumbnail`. -/
def thumbnail (img : PImage) (w h : PyNum) : Except DetectErr PImage :=
  match normalizeDims w h with
  | .ok (w', h') => .ok (pilThumbnail img w'.val.toNat h'.val.toNat)
  | .error e => .error e

/-! ### Engine output model and the ranking loop of `detect` -/

/-- A raw detection box in tensor-normalized space, in the engine's
`(ymin, xmin, ymax, xmax)` layout (`box[0] = ymin`, ..., `box[3] = xmax`). -/
structure RawBox where
  ymin : ℚ
  xmin : ℚ
  ymax : ℚ
  xmax : ℚ
deriving DecidableEq

/-- The four output tensors read back from the engine after `infer()`,
with the batch dimension already indexed away (`boxes[0, i]`,
`label_codes[0, i]`, `scores[0, i]`), plus `detections_count =
int(num[0])`.  Tensors are total maps from index, so indexing never goes
out of bounds in the model. -/
structure RawOutput where
  boxes : ℕ → RawBox
  labelCodes : ℕ → ℤ
  scores : ℕ → ℚ
  count : ℕ

/-- A returned detection `(label, confidence, (x0, y0, x1, y1))`. -/
abbrev Detection := List Char × ℚ × (ℚ × ℚ × ℚ × ℚ)

instance : DecidableEq (ℚ × ℚ × ℚ × ℚ) := instDecidableEqProd

instance : DecidableEq (ℚ × (ℚ × ℚ × ℚ × ℚ)) := instDecidableEqProd

instance : DecidableEq Detection := instDecidableEqProd

/-- Python list slicing `l[-k:]`: for `k = 0` this is `l[0:]`, the whole
list; for `k ≥ 1` it is the last `min k (length l)` elements. -/
def pyLastSlice (k : ℕ) (l : List α) : List α :=
  if k = 0 then l else l.drop (l.length - k)

/-- `np.argsort(scores[0, :detections_count])`: the indices
`0, ..., count-1` sorted by ascending score (`np.argsort`'s tie order is
unspecified — the default quicksort is not stable — so any sort by
ascending score refines it; insertion sort is used here). -/
def argsortAsc (score : ℕ → ℚ) (count : ℕ) : List ℕ :=
  List.insertionSort (fun i j => score i ≤ score j) (List.range count)

/-- `top_k_indices = indices_of_sorted_scores[-1*top_k:][::-1]`. -/
def topKIndices (score : ℕ → ℚ) (count top_k : ℕ) : List ℕ :=
  (pyLastSlice top_k (argsortAsc score count)).reverse

/-- The box back-projection block of `detect`:
`x0 = box[1]/w_factor; y0 = box[0]/h_factor;`
`x1 = min(box[3]/w_factor, 1); y1 = min(box[2]/h_factor, 1)`. -/
def backBox (b : RawBox) (wf hf : ℚ) : ℚ × ℚ × ℚ × ℚ :=
  (b.xmin / wf, b.ymin / hf, min (b.xmax / wf) 1, min (b.ymax / hf) 1)

/-- The `for i in top_k_indices` loop of `detect`, accumulating
`inference_result`.  A candidate below the confidence threshold is
skipped; a candidate whose label code is `≥ len(self._labels)` is
skipped; otherwise `self._labels[li]` is looked up — raising `KeyError`
if `li` is not actually a key of the dict — and the back-projected
detection is appended. -/
def rankLoop (raw : RawOutput) (labels : LabelDict) (thr wf hf : ℚ) :
    List ℕ → List Detection → Except DetectErr (List Detection)
  | [], acc => .ok acc
  | i :: rest, acc =>
    let confidence := raw.scores i
    if thr ≤ confidence then
      let li := raw.labelCodes i
      if li < (labels.length : ℤ) then
        match dictLookup labels li with
        | some label =>
          rankLoop raw labels thr wf hf rest
            (acc ++ [(label, confidence, backBox (raw.boxes i) wf hf)])
        | none => .error (.keyError li)
      else rankLoop raw labels thr wf hf rest acc
    else rankLoop raw labels thr wf hf rest acc

/-- The filter corresponding to one iteration of the loop, used to state
what a successful `rankLoop` returns. -/
def pick (raw : RawOutput) (labels : LabelDict) (thr wf hf : ℚ) (i : ℕ) :
    Option Detection :=
  if thr ≤ raw.scores i then
    if raw.labelCodes i < (labels.length : ℤ) then
      (dictLookup labels (raw.labelCodes i)).map
        (fun label => (label, raw.scores i, backBox (raw.boxes i) wf hf))
    else none
  else none

/-- `TFImageDetection.detect`.  The external engine is abstracted: its
input tensor geometry is `(tW, tH)` (the numpy scalars
`input_details[0]['shape'][2]` and `[1]`, hence passed to `thumbnail` as
`np.generic` values), and the four tensors it produces for this call are
`raw`.  The quantization branch and `set_tensor`/`infer`/`_log_stats`
only feed the engine or the log and do not affect the returned value.
Returns `(thumbnail, padded_image, inference_result)` or the first
exception the Python code would raise. -/
def detect (img : PImage) (tW tH : ℕ) (raw : RawOutput) (top_k : ℕ)
    (thr : ℚ) (labels : LabelDict) :
    Except DetectErr (PImage × PImage × List Detection) :=
  match thumbnail img (.npgeneric tW) (.npgeneric tH) with
  | .error e => .error e
  | .ok thumb =>
    let new_im := resize thumb (tW, tH)
    if new_im.width = 0 ∨ new_im.height = 0 then .error .zeroDivisionError
    else
      let w_factor : ℚ := (thumb.width : ℚ) / (new_im.width : ℚ)
      let h_factor : ℚ := (thumb.height : ℚ) / (new_im.height : ℚ)
      match rankLoop raw labels thr w_factor h_factor
          (topKIndices raw.scores raw.count top_k) [] with
      | .ok dets => .ok (thumb, new_im, dets)
      | .error e => .error e

/-! ## Lemmas about the ranking loop -/

theorem rankLoop_ok (raw : RawOutput) (labels : LabelDict) (thr wf hf : ℚ)
    (idx : List ℕ) : ∀ acc res : List Detection,
    rankLoop raw labels thr wf hf idx acc = .ok res →
    res = acc ++ idx.filterMap (pick raw labels thr wf hf) := by
  induction idx with
  | nil =>
    intro acc res h
    simp only [rankLoop] at h
    cases h
    simp
  | cons i rest ih =>
    intro acc res h
    simp only [rankLoop] at h
    by_cases h1 : thr ≤ raw.scores i
    · rw [if_pos h1] at h
      by_cases h2 : raw.labelCodes i < (labels.length : ℤ)
      · rw [if_pos h2] at h
        cases hl : dictLookup labels (raw.labelCodes i) with
        | none => rw [hl] at h; cases h
        | some label =>
          rw [hl] at h
          have hres := ih _ _ h
          rw [hres]
          simp [pick, h1, h2, hl, List.filterMap_cons]
      · rw [if_neg h2] at h
        have hres := ih _ _ h
        rw [hres]
        simp [pick, h1, h2, List.filterMap_cons]
    · rw [if_neg h1] at h
      have hres := ih _ _ h
      rw [hres]
      simp [pick, h1, List.filterMap_cons]

theorem rankLoop_skip (raw : RawOutput) (labels : LabelDict) (thr wf hf : ℚ)
    (idx : List ℕ)
    (h : ∀ i ∈ idx, raw.scores i < thr ∨ (labels.length : ℤ) ≤ raw.labelCodes i) :
    ∀ acc, rankLoop raw labels thr wf hf idx acc = .ok acc := by
  induction idx with
  | nil => intro acc; simp [rankLoop]
  | cons i rest ih =>
    intro acc
    have hrest := fun j hj => h j (List.mem_cons_of_mem i hj)
    simp only [rankLoop]
    rcases h i (List.mem_cons_self i rest) with hs | hc
    · rw [if_neg (not_le.mpr hs)]
      exact ih hrest acc
    · by_cases h1 : thr ≤ raw.scores i
      · rw [if_pos h1, if_neg (not_lt.mpr hc)]
        exact ih hrest acc
      · rw [if_neg h1]
        exact ih hrest acc

/-! ## Lemmas about the top-k index window -/

theorem topKIndices_length_le (s : ℕ → ℚ) (c k : ℕ) (hk : 1 ≤ k) :
    (topKIndices s c k).length ≤ k := by
  unfold topKIndices pyLastSlice
  rw [if_neg (by omega)]
  simp only [List.length_reverse, List.length_drop]
  have hlen : (argsortAsc s c).length = c := by
    unfold argsortAsc
    rw [List.length_insertionSort, List.length_range]
  omega

theorem topKIndices_sorted (s : ℕ → ℚ) (c k : ℕ) :
    (topKIndices s c k).Pairwise (fun i j => s j ≤ s i) := by
  haveI : IsTotal ℕ (fun i j => s i ≤ s j) := ⟨fun a b => le_total (s a) (s b)⟩
  haveI : IsTrans ℕ (fun i j => s i ≤ s j) := ⟨fun _ _ _ hab hbc => le_trans hab hbc⟩
  have hsort : (argsortAsc s c).Pairwise (fun i j => s i ≤ s j) :=
    List.sorted_insertionSort _ _
  unfold topKIndices pyLastSlice
  split
  · exact List.pairwise_reverse.mpr hsort
  · exact List.pairwise_reverse.mpr (hsort.drop)

theorem topKIndices_mem_lt (s : ℕ → ℚ) (c k : ℕ) :
    ∀ i ∈ topKIndices s c k, i < c := by
  intro i hi
  have hperm := List.perm_insertionSort (fun i j => s i ≤ s j) (List.range c)
  rw [topKIndices, List.mem_reverse] at hi
  have hi' : i ∈ argsortAsc s c := by
    unfold pyLastSlice at hi
    split at hi
    · exact hi
    · exact (List.drop_sublist _ _).mem hi
  exact List.mem_range.mp (hperm.mem_iff.mp hi')

/-! ## Structure of a successful `detect` call -/

theorem detect_ok_inv (img : PImage) (tW tH : ℕ) (raw : RawOutput) (top_k : ℕ)
    (thr : ℚ) (labels : LabelDict) (t p : PImage) (dets : List Detection)
    (h : detect img tW tH raw top_k thr labels = .ok (t, p, dets)) :
    t = pilThumbnail img tW tH ∧ p = resize (pilThumbnail img tW tH) (tW, tH) ∧
      rankLoop raw labels thr ((t.width : ℚ) / (p.width : ℚ))
        ((t.height : ℚ) / (p.height : ℚ))
        (topKIndices raw.scores raw.count top_k) [] = .ok dets := by
  unfold detect thumbnail normalizeDims at h
  simp only [PyNum.val, Int.toNat_natCast] at h
  split at h
  · cases h
  · split at h
    · next dets' hr =>
      rw [Except.ok.injEq] at h
      obtain ⟨rfl, rfl, rfl⟩ := Prod.mk.injEq .. ▸ h
      exact ⟨rfl, rfl, hr⟩
    · cases h

theorem pick_some (raw : RawOutput) (labels : LabelDict) (thr wf hf : ℚ) (i : ℕ)
    (d : Detection) (h : pick raw labels thr wf hf i = some d) :
    thr ≤ raw.scores i ∧ d.2.1 = raw.scores i ∧
      d.2.2 = backBox (raw.boxes i) wf hf ∧
      raw.labelCodes i < (labels.length : ℤ) ∧
      dictLookup labels (raw.labelCodes i) = some d.1 := by
  unfold pick at h
  split_ifs at h with h1 h2
  rcases Option.map_eq_some'.mp h with ⟨label, hl, rfl⟩
  exact ⟨h1, rfl, rfl, h2, hl⟩

/-! ## Claim theorems: the ranker (C1, C2, C3, C9) -/

/-- Shared concrete fixtures used by witnesses: a 600×400 image detected
against a 300×300 input tensor (the end-to-end scenario of spec §8). -/
def sampleImg : PImage := ⟨600, 400, fun _ _ => 7⟩

def sampleBox : RawBox := ⟨1/10, 2/10, 4/10, 6/10⟩

def sampleRaw : RawOutput :=
  ⟨fun _ => sampleBox, fun _ => 0,
   fun i => if i = 0 then 9/10 else if i = 1 then 1/2 else 1/10, 3⟩

def sampleLabels : LabelDict := [(0, ['p', 'e', 'r', 's', 'o', 'n'])]

def sampleDets : List Detection :=
  [(['p', 'e', 'r', 's', 'o', 'n'], 9/10, backBox sampleBox 1 (2/3)),
   (['p', 'e', 'r', 's', 'o', 'n'], 1/2, backBox sampleBox 1 (2/3))]

/-- C1, counterexample to the claim as stated: with `top_k = 0` the Python
slice `indices_of_sorted_scores[-0:]` is the *whole* index list, so a
single above-threshold candidate yields one returned detection — more
than `top_k = 0`. -/
theorem detect_topk_zero_counterexample :
    (detect ⟨4, 4, fun _ _ => 7⟩ 4 4
        ⟨fun _ => ⟨0, 0, 1, 1⟩, fun _ => 0, fun _ => 9/10, 1⟩ 0 (1/2)
        [(0, ['a'])]).map (fun r => r.2.2.length) = .ok 1 ∧ ¬(1 ≤ 0) :=
  ⟨by with_unfolding_all decide, by decide⟩

/-- C1 (amended: for every configured `top_k ≥ 1`): a successful `detect`
returns at most `top_k` detections, ordered by descending confidence,
every confidence is `≥ confidence_threshold`, and a top-k candidate whose
confidence equals the threshold exactly (and whose label resolves) is
included — the boundary test is the inclusive `>=`. -/
theorem detect_ranker_spec (img : PImage) (tW tH : ℕ) (raw : RawOutput)
    (top_k : ℕ) (thr : ℚ) (labels : LabelDict) (t p : PImage)
    (dets : List Detection) (hk : 1 ≤ top_k)
    (h : detect img tW tH raw top_k thr labels = .ok (t, p, dets)) :
    dets.length ≤ top_k ∧
    dets.Pairwise (fun d e => e.2.1 ≤ d.2.1) ∧
    (∀ d ∈ dets, thr ≤ d.2.1) ∧
    (∀ i ∈ topKIndices raw.scores raw.count top_k,
      raw.scores i = thr → raw.labelCodes i < (labels.length : ℤ) →
      ∀ l, dictLookup labels (raw.labelCodes i) = some l →
      (l, thr, backBox (raw.boxes i) ((t.width : ℚ) / (p.width : ℚ))
        ((t.height : ℚ) / (p.height : ℚ))) ∈ dets) := by
  obtain ⟨ht, hp, hr⟩ := detect_ok_inv img tW tH raw top_k thr labels t p dets h
  set wf := (t.width : ℚ) / (p.width : ℚ) with hwf
  set hf := (t.height : ℚ) / (p.height : ℚ) with hhf
  have hres := rankLoop_ok raw labels thr wf hf _ _ _ hr
  rw [List.nil_append] at hres
  subst hres
  refine ⟨?_, ?_, ?_, ?_⟩
  · exact le_trans (List.length_filterMap_le _ _)
      (topKIndices_length_le raw.scores raw.count top_k hk)
  · refine List.Pairwise.filterMap _ ?_ (topKIndices_sorted raw.scores raw.count top_k)
    intro i j hij d hd e he
    obtain ⟨_, hdc, -⟩ := pick_some raw labels thr wf hf i d hd
    obtain ⟨_, hec, -⟩ := pick_some raw labels thr wf hf j e he
    rw [hdc, hec]
    exact hij
  · intro d hd
    obtain ⟨i, _, hpick⟩ := List.mem_filterMap.mp hd
    obtain ⟨h1, hdc, -⟩ := pick_some raw labels thr wf hf i d hpick
    rw [hdc]
    exact h1
  · intro i hi hsc hcode l hl
    refine List.mem_filterMap.mpr ⟨i, hi, ?_⟩
    simp [pick, hsc, hcode, hl]

/-- C1, witness for the amended theorem on the §8 scenario with
`top_k = 2`, one candidate at `0.9` and one exactly at the `0.5`
threshold. -/
theorem detect_ranker_spec_witness :
    1 ≤ 2 ∧
    (sampleDets.length ≤ 2 ∧
     sampleDets.Pairwise (fun d e => e.2.1 ≤ d.2.1) ∧
     (∀ d ∈ sampleDets, (1 : ℚ)/2 ≤ d.2.1) ∧
     (∀ i ∈ topKIndices sampleRaw.scores sampleRaw.count 2,
       sampleRaw.scores i = 1/2 →
       sampleRaw.labelCodes i < (sampleLabels.length : ℤ) →
       ∀ l, dictLookup sampleLabels (sampleRaw.labelCodes i) = some l →
       (l, 1/2, backBox (sampleRaw.boxes i)
         (((pilThumbnail sampleImg 300 300).width : ℚ) /
           ((resize (pilThumbnail sampleImg 300 300) (300, 300)).width : ℚ))
         (((pilThumbnail sampleImg 300 300).height : ℚ) /
           ((resize (pilThumbnail sampleImg 300 300) (300, 300)).height : ℚ)))
         ∈ sampleDets)) :=
  ⟨by decide,
   detect_ranker_spec sampleImg 300 300 sampleRaw 2 (1/2) sampleLabels
     (pilThumbnail sampleImg 300 300)
     (resize (pilThumbnail sampleImg 300 300) (300, 300)) sampleDets
     (by decide) (by with_unfolding_all rfl)⟩

/-- C2, the code bug: the guard `li < len(self._labels)` compares against
the dict's *size*, not key membership.  With the non-dense label map
`{0: "cat", 5: "dog"}` (len 2): an above-threshold candidate with code 1
(< 2 but not a key) raises `KeyError` instead of being silently dropped,
and an above-threshold candidate with the in-map code 5 (≥ 2) is dropped
instead of kept — both halves of the claim fail on the code. -/
theorem detect_nondense_labelmap_keyerror :
    detect ⟨4, 4, fun _ _ => 7⟩ 4 4
        ⟨fun _ => ⟨0, 0, 1, 1⟩, fun _ => 1, fun _ => 9/10, 1⟩ 3 (1/2)
        [(0, ['c', 'a', 't']), (5, ['d', 'o', 'g'])] = .error (.keyError 1) ∧
    (detect ⟨4, 4, fun _ _ => 7⟩ 4 4
        ⟨fun _ => ⟨0, 0, 1, 1⟩, fun _ => 5, fun _ => 9/10, 1⟩ 3 (1/2)
        [(0, ['c', 'a', 't']), (5, ['d', 'o', 'g'])]).map (fun r => r.2.2) =
      .ok [] :=
  ⟨by with_unfolding_all rfl, by with_unfolding_all decide⟩

/-- C3: every detection a successful `detect` emits carries the box
`(x0, y0, x1, y1) = (xmin / w_factor, ymin / h_factor,
min (xmax / w_factor) 1, min (ymax / h_factor) 1)` of some top-k raw box
— only the upper bounds of `x1`/`y1` are clamped, and `x0`/`y0` are the
раw quotients with no lower-bound clamp. -/
theorem detect_backprojection (img : PImage) (tW tH : ℕ) (raw : RawOutput)
    (top_k : ℕ) (thr : ℚ) (labels : LabelDict) (t p : PImage)
    (dets : List Detection)
    (h : detect img tW tH raw top_k thr labels = .ok (t, p, dets)) :
    ∀ d ∈ dets, ∃ i ∈ topKIndices raw.scores raw.count top_k,
      d.2.2 = ((raw.boxes i).xmin / ((t.width : ℚ) / (p.width : ℚ)),
               (raw.boxes i).ymin / ((t.height : ℚ) / (p.height : ℚ)),
               min ((raw.boxes i).xmax / ((t.width : ℚ) / (p.width : ℚ))) 1,
               min ((raw.boxes i).ymax / ((t.height : ℚ) / (p.height : ℚ))) 1) := by
  obtain ⟨ht, hp, hr⟩ := detect_ok_inv img tW tH raw top_k thr labels t p dets h
  have hres := rankLoop_ok raw labels thr _ _ _ _ _ hr
  rw [List.nil_append] at hres
  subst hres
  intro d hd
  obtain ⟨i, hi, hpick⟩ := List.mem_filterMap.mp hd
  obtain ⟨-, -, hbox, -, -⟩ := pick_some raw labels thr _ _ i d hpick
  exact ⟨i, hi, hbox⟩

/-- C3, witness fixtures: a raw box with a negative `xmin` back-projects
to a negative `x0` (no lower clamp), while `x1` is clamped to 1. -/
def negBoxRaw : RawOutput :=
  ⟨fun _ => ⟨1/10, -(2/10), 4/10, 6/10⟩, fun _ => 0, fun _ => 9/10, 1⟩

def negDet : Detection :=
  (['p', 'e', 'r', 's', 'o', 'n'], 9/10, backBox ⟨1/10, -(2/10), 4/10, 6/10⟩ 1 (2/3))

theorem detect_backprojection_witness :
    ∃ i ∈ topKIndices negBoxRaw.scores negBoxRaw.count 3,
      negDet.2.2 = ((negBoxRaw.boxes i).xmin /
                   (((pilThumbnail sampleImg 300 300).width : ℚ) /
                     ((resize (pilThumbnail sampleImg 300 300) (300, 300)).width : ℚ)),
                 (negBoxRaw.boxes i).ymin /
                   (((pilThumbnail sampleImg 300 300).height : ℚ) /
                     ((resize (pilThumbnail sampleImg 300 300) (300, 300)).height : ℚ)),
                 min ((negBoxRaw.boxes i).xmax /
                   (((pilThumbnail sampleImg 300 300).width : ℚ) /
                     ((resize (pilThumbnail sampleImg 300 300) (300, 300)).width : ℚ))) 1,
                 min ((negBoxRaw.boxes i).ymax /
                   (((pilThumbnail sampleImg 300 300).height : ℚ) /
                     ((resize (pilThumbnail sampleImg 300 300) (300, 300)).height : ℚ))) 1) :=
  detect_backprojection sampleImg 300 300 negBoxRaw 3 (1/2) sampleLabels
    (pilThumbnail sampleImg 300 300)
    (resize (pilThumbnail sampleImg 300 300) (300, 300)) [negDet]
    (by with_unfolding_all rfl) negDet (List.mem_singleton.mpr rfl)

/-- C9: when the detection count is zero, or no top-k candidate both
clears the confidence threshold and has a label code inside the label-map
range, `detect` returns normally with the thumbnail, the padded image and
an empty detection list. -/
theorem detect_empty_result (img : PImage) (tW tH : ℕ) (raw : RawOutput)
    (top_k : ℕ) (thr : ℚ) (labels : LabelDict)
    (htW : 0 < tW) (htH : 0 < tH)
    (h : raw.count = 0 ∨ ∀ i ∈ topKIndices raw.scores raw.count top_k,
          raw.scores i < thr ∨ (labels.length : ℤ) ≤ raw.labelCodes i) :
    detect img tW tH raw top_k thr labels =
      .ok (pilThumbnail img tW tH, resize (pilThumbnail img tW tH) (tW, tH), []) := by
  have hall : ∀ i ∈ topKIndices raw.scores raw.count top_k,
      raw.scores i < thr ∨ (labels.length : ℤ) ≤ raw.labelCodes i := by
    rcases h with h0 | h
    · intro i hi
      have := topKIndices_mem_lt raw.scores raw.count top_k i hi
      omega
    · exact h
  have hskip := rankLoop_skip raw labels thr
    (((pilThumbnail img tW tH).width : ℚ) /
      ((resize (pilThumbnail img tW tH) (tW, tH)).width : ℚ))
    (((pilThumbnail img tW tH).height : ℚ) /
      ((resize (pilThumbnail img tW tH) (tW, tH)).height : ℚ))
    (topKIndices raw.scores raw.count top_k) hall []
  have hw : (resize (pilThumbnail img tW tH) (tW, tH)).width =
      (pilThumbnail img tW tH).width + (tW - (pilThumbnail img tW tH).width) := by
    simp [resize, expand]
  have hh : (resize (pilThumbnail img tW tH) (tW, tH)).height =
      (pilThumbnail img tW tH).height + (tH - (pilThumbnail img tW tH).height) := by
    simp [resize, expand]
  unfold detect thumbnail normalizeDims
  simp only [PyNum.val, Int.toNat_natCast]
  rw [if_neg (by omega), hskip]

/-- C9, witness: three candidates, none of which survives — two are below
threshold and one has an out-of-range label code. -/
def skipRaw : RawOutput :=
  ⟨fun _ => ⟨0, 0, 1, 1⟩, fun i => if i = 0 then 99 else 0,
   fun i => if i = 0 then 7/10 else 2/10, 2⟩

theorem detect_empty_result_witness :
    0 < 300 ∧ 0 < 300 ∧
    (skipRaw.count = 0 ∨ ∀ i ∈ topKIndices skipRaw.scores skipRaw.count 3,
      skipRaw.scores i < 1/2 ∨ ((sampleLabels.length : ℤ) ≤ skipRaw.labelCodes i)) ∧
    detect sampleImg 300 300 skipRaw 3 (1/2) sampleLabels =
      .ok (pilThumbnail sampleImg 300 300,
           resize (pilThumbnail sampleImg 300 300) (300, 300), []) :=
  ⟨by decide, by decide,
   Or.inr (by with_unfolding_all decide),
   detect_empty_result sampleImg 300 300 skipRaw 3 (1/2) sampleLabels
     (by decide) (by decide) (Or.inr (by with_unfolding_all decide))⟩

/-! ## Lemmas about `roundAspect` and `thumbnailSize` -/

theorem one_le_roundAspect (number : ℚ) (key : ℤ → ℚ) :
    1 ≤ roundAspect number key :=
  le_max_right _ _

theorem roundAspect_le (number : ℚ) (key : ℤ → ℚ) (m : ℤ)
    (h1 : number ≤ (m : ℚ)) (h2 : 1 ≤ m) : roundAspect number key ≤ m := by
  have hc : ⌈number⌉ ≤ m := Int.ceil_le.mpr h1
  unfold roundAspect
  apply max_le _ h2
  split
  · exact le_trans (Int.floor_le_ceil number) hc
  · exact hc

theorem abs_roundAspect_sub_le (number : ℚ) (key : ℤ → ℚ) (h : 0 < number) :
    |((roundAspect number key : ℤ) : ℚ) - number| ≤ 1 := by
  have hfl : ((⌊number⌋ : ℤ) : ℚ) ≤ number := Int.floor_le number
  have hfl2 : number < ((⌊number⌋ : ℤ) : ℚ) + 1 := Int.lt_floor_add_one number
  have hcl : number ≤ ((⌈number⌉ : ℤ) : ℚ) := Int.le_ceil number
  have hcl2 : ((⌈number⌉ : ℤ) : ℚ) < number + 1 := Int.ceil_lt_add_one number
  unfold roundAspect
  split
  · rcases le_or_lt 1 ⌊number⌋ with h1 | h1
    · rw [max_eq_left h1, abs_le]
      constructor <;> linarith
    · rw [max_eq_right h1.le]
      have hf0 : ((⌊number⌋ : ℤ) : ℚ) ≤ 0 := by
        exact_mod_cast (by omega : ⌊number⌋ ≤ 0)
      rw [abs_le]
      push_cast
      constructor <;> linarith
  · have h1 : 1 ≤ ⌈number⌉ := Int.ceil_pos.mpr h
    rw [max_eq_left h1, abs_le]
    constructor <;> linarith

theorem thumbnailSize_spec (iw ih tw th : ℕ)
    (hiw : 0 < iw) (hih : 0 < ih) (htw : 0 < tw) (hth : 0 < th) :
    (thumbnailSize iw ih tw th).1 ≤ tw ∧ (thumbnailSize iw ih tw th).2 ≤ th ∧
    (thumbnailSize iw ih tw th).1 ≤ iw ∧ (thumbnailSize iw ih tw th).2 ≤ ih ∧
    0 < (thumbnailSize iw ih tw th).1 ∧ 0 < (thumbnailSize iw ih tw th).2 ∧
    |((thumbnailSize iw ih tw th).1 : ℤ) * ih - ((thumbnailSize iw ih tw th).2 : ℤ) * iw|
      ≤ ((max iw ih : ℕ) : ℤ) := by
  have hiwQ : (0 : ℚ) < iw := by exact_mod_cast hiw
  have hihQ : (0 : ℚ) < ih := by exact_mod_cast hih
  have htwQ : (0 : ℚ) < tw := by exact_mod_cast htw
  have hthQ : (0 : ℚ) < th := by exact_mod_cast hth
  have haspect_pos : 0 < (iw : ℚ) / (ih : ℚ) := div_pos hiwQ hihQ
  unfold thumbnailSize
  dsimp only
  split_ifs with h1 h2
  · refine ⟨h1.1, h1.2, le_refl _, le_refl _, hiw, hih, ?_⟩
    simp [mul_comm]
  · -- the target is wider than the image's aspect: height pinned to `th`
    have hthih : th ≤ ih := by
      by_contra hcon
      push_neg at hcon
      have hconQ : (ih : ℚ) < th := by exact_mod_cast hcon
      have hQ : (iw : ℚ) * th ≤ tw * ih :=
        (div_le_div_iff hihQ hthQ).mp h2
      have : (iw : ℚ) * th < tw * th :=
        lt_of_le_of_lt hQ (by exact mul_lt_mul_of_pos_left hconQ htwQ)
      have hiwtw : (iw : ℚ) < tw := lt_of_mul_lt_mul_right this hthQ.le
      exact h1 ⟨by exact_mod_cast hiwtw.le, hcon.le⟩
    set N : ℚ := (th : ℚ) * ((iw : ℚ) / (ih : ℚ)) with hN
    have hNpos : 0 < N := mul_pos hthQ haspect_pos
    have hNle_tw : N ≤ (tw : ℚ) := by
      have := (le_div_iff hthQ).mp h2
      rw [hN]; linarith
    have hNle_iw : N ≤ (iw : ℚ) := by
      rw [hN, mul_div_assoc' , div_le_iff hihQ]
      have hle : (th : ℚ) ≤ ih := by exact_mod_cast hthih
      calc (th : ℚ) * iw ≤ (ih : ℚ) * iw :=
            mul_le_mul_of_nonneg_right hle hiwQ.le
        _ = iw * ih := mul_comm _ _
    have hr1 : 1 ≤ roundAspect N fun n => |(iw : ℚ) / ih - (n : ℚ) / th| :=
      one_le_roundAspect _ _
    have hrtw : roundAspect N (fun n => |(iw : ℚ) / ih - (n : ℚ) / th|) ≤ (tw : ℤ) :=
      roundAspect_le _ _ _ (by exact_mod_cast hNle_tw) (by exact_mod_cast htw)
    have hriw : roundAspect N (fun n => |(iw : ℚ) / ih - (n : ℚ) / th|) ≤ (iw : ℤ) :=
      roundAspect_le _ _ _ (by exact_mod_cast hNle_iw) (by exact_mod_cast hiw)
    have habs : |((roundAspect N fun n => |(iw : ℚ) / ih - (n : ℚ) / th| : ℤ) : ℚ) - N| ≤ 1 :=
      abs_roundAspect_sub_le _ _ hNpos
    set r := roundAspect N fun n => |(iw : ℚ) / ih - (n : ℚ) / th| with hrdef
    refine ⟨by omega, le_refl _, by omega, hthih, by omega, hth, ?_⟩
    have hcast : ((r.toNat : ℕ) : ℤ) = r := by omega
    rw [hcast]
    have hNih : N * ih = th * iw := by
      rw [hN]
      field_simp
    have key : |(r : ℚ) * ih - (th : ℚ) * iw| ≤ (ih : ℚ) := by
      have hexp : (r : ℚ) * ih - (th : ℚ) * iw = ((r : ℚ) - N) * ih := by
        rw [sub_mul, hNih]
      rw [hexp, abs_mul, abs_of_pos hihQ]
      calc |(r : ℚ) - N| * ih ≤ 1 * ih :=
            mul_le_mul_of_nonneg_right habs hihQ.le
        _ = ih := one_mul _
    have keyZ : |r * (ih : ℤ) - (th : ℤ) * iw| ≤ (ih : ℤ) := by
      exact_mod_cast key
    calc |r * (ih : ℤ) - (th : ℤ) * iw| ≤ (ih : ℤ) := keyZ
      _ ≤ ((max iw ih : ℕ) : ℤ) := by
        have := le_max_right iw ih
        exact_mod_cast this
  · -- the target is narrower than the image's aspect: width pinned to `tw`
    push_neg at h2
    have htwiw : tw ≤ iw := by
      by_contra hcon
      push_neg at hcon
      have hconQ : (iw : ℚ) < tw := by exact_mod_cast hcon
      have hQ : (tw : ℚ) * ih < iw * th :=
        (div_lt_div_iff hthQ hihQ).mp h2
      have : (tw : ℚ) * ih < tw * th :=
        lt_of_lt_of_le hQ (by
          exact mul_le_mul_of_nonneg_right hconQ.le (by positivity))
      have hihth : (ih : ℚ) < th := lt_of_mul_lt_mul_left this htwQ.le
      exact h1 ⟨hcon.le, by exact_mod_cast hihth.le⟩
    set N : ℚ := (tw : ℚ) / ((iw : ℚ) / (ih : ℚ)) with hN
    have hNalt : N = (tw : ℚ) * ih / iw := by
      rw [hN]
      field_simp
    have hNpos : 0 < N := by
      rw [hNalt]
      positivity
    have hNlt_th : N < (th : ℚ) := by
      rw [hN, div_lt_iff haspect_pos]
      have := (div_lt_iff hthQ).mp h2
      linarith
    have hNle_ih : N ≤ (ih : ℚ) := by
      rw [hNalt, div_le_iff hiwQ]
      have hle : (tw : ℚ) ≤ iw := by exact_mod_cast htwiw
      calc (tw : ℚ) * ih ≤ (iw : ℚ) * ih :=
            mul_le_mul_of_nonneg_right hle hihQ.le
        _ = ih * iw := mul_comm _ _
    have hr1 : 1 ≤ roundAspect N fun n =>
        if n = 0 then 0 else |(iw : ℚ) / ih - (tw : ℚ) / (n : ℚ)| :=
      one_le_roundAspect _ _
    have hrth : roundAspect N (fun n =>
        if n = 0 then 0 else |(iw : ℚ) / ih - (tw : ℚ) / (n : ℚ)|) ≤ (th : ℤ) :=
      roundAspect_le _ _ _ (by exact_mod_cast hNlt_th.le) (by exact_mod_cast hth)
    have hrih : roundAspect N (fun n =>
        if n = 0 then 0 else |(iw : ℚ) / ih - (tw : ℚ) / (n : ℚ)|) ≤ (ih : ℤ) :=
      roundAspect_le _ _ _ (by exact_mod_cast hNle_ih) (by exact_mod_cast hih)
    have habs : |((roundAspect N fun n =>
        if n = 0 then 0 else |(iw : ℚ) / ih - (tw : ℚ) / (n : ℚ)| : ℤ) : ℚ) - N| ≤ 1 :=
      abs_roundAspect_sub_le _ _ hNpos
    set r := roundAspect N fun n =>
      if n = 0 then 0 else |(iw : ℚ) / ih - (tw : ℚ) / (n : ℚ)| with hrdef
    refine ⟨le_refl _, by omega, htwiw, by omega, htw, by omega, ?_⟩
    have hcast : ((r.toNat : ℕ) : ℤ) = r := by omega
    rw [hcast]
    have hNiw : N * iw = tw * ih := by
      rw [hNalt]
      field_simp
    have key : |(tw : ℚ) * ih - (r : ℚ) * iw| ≤ (iw : ℚ) := by
      have hexp : (tw : ℚ) * ih - (r : ℚ) * iw = (N - (r : ℚ)) * iw := by
        rw [sub_mul, hNiw]
      rw [hexp, abs_mul, abs_of_pos hiwQ, abs_sub_comm]
      calc |(r : ℚ) - N| * iw ≤ 1 * iw :=
            mul_le_mul_of_nonneg_right habs hiwQ.le
        _ = iw := one_mul _
    have keyZ : |(tw : ℤ) * ih - r * iw| ≤ (iw : ℤ) := by
      exact_mod_cast key
    calc |(tw : ℤ) * ih - r * iw| ≤ (iw : ℤ) := keyZ
      _ ≤ ((max iw ih : ℕ) : ℤ) := by
        have := le_max_left iw ih
        exact_mod_cast this

theorem pilThumbnail_width (img : PImage) (tw th : ℕ) :
    (pilThumbnail img tw th).width = (thumbnailSize img.width img.height tw th).1 := by
  unfold pilThumbnail
  dsimp only
  split
  · next hs => rw [hs]
  · rfl

theorem pilThumbnail_height (img : PImage) (tw th : ℕ) :
    (pilThumbnail img tw th).height = (thumbnailSize img.width img.height tw th).2 := by
  unfold pilThumbnail
  dsimp only
  split
  · next hs => rw [hs]
  · rfl

/-! ## Claim theorems: thumbnailer and padder geometry (C4, C5, C6) -/

/-- C4: for positive image and target dimensions, `thumbnail` returns an
image that fits inside the target in both dimensions, never exceeds the
input image in either dimension (no upscaling), and preserves the aspect
ratio within rounding tolerance (`|out_w * in_h - out_h * in_w| ≤
max in_w in_h`, i.e. the output ratio differs from the input ratio by at
most one pixel of rounding).  The input image itself is untouched — the
source operates on `image.copy()` and the embedding is functional. -/
theorem thumbnail_dims_spec (img : PImage) (tw th : ℕ)
    (hiw : 0 < img.width) (hih : 0 < img.height) (htw : 0 < tw) (hth : 0 < th)
    (out : PImage) (h : thumbnail img (.npgeneric tw) (.npgeneric th) = .ok out) :
    out.width ≤ tw ∧ out.height ≤ th ∧
    out.width ≤ img.width ∧ out.height ≤ img.height ∧
    |(out.width : ℤ) * img.height - (out.height : ℤ) * img.width| ≤
      ((max img.width img.height : ℕ) : ℤ) := by
  have hout : out = pilThumbnail img tw th := by
    unfold thumbnail normalizeDims at h
    simp only [PyNum.val, Int.toNat_natCast] at h
    cases h
    rfl
  subst hout
  rw [pilThumbnail_width, pilThumbnail_height]
  obtain ⟨a, b, c, d, -, -, e⟩ :=
    thumbnailSize_spec img.width img.height tw th hiw hih htw hth
  exact ⟨a, b, c, d, e⟩

/-- C4, witness: the 600×400 sample image against a 300×300 tensor; the
thumbnail is 300×200. -/
theorem thumbnail_dims_spec_witness :
    0 < sampleImg.width ∧ 0 < sampleImg.height ∧ 0 < 300 ∧ 0 < 300 ∧
    (thumbnail sampleImg (.npgeneric 300) (.npgeneric 300) =
      .ok (pilThumbnail sampleImg 300 300)) ∧
    ((pilThumbnail sampleImg 300 300).width ≤ 300 ∧
     (pilThumbnail sampleImg 300 300).height ≤ 300 ∧
     (pilThumbnail sampleImg 300 300).width ≤ sampleImg.width ∧
     (pilThumbnail sampleImg 300 300).height ≤ sampleImg.height ∧
     |((pilThumbnail sampleImg 300 300).width : ℤ) * sampleImg.height -
       ((pilThumbnail sampleImg 300 300).height : ℤ) * sampleImg.width| ≤
       ((max sampleImg.width sampleImg.height : ℕ) : ℤ)) :=
  ⟨by decide, by decide, by decide, by decide, by with_unfolding_all rfl,
   thumbnail_dims_spec sampleImg 300 300 (by decide) (by decide) (by decide)
     (by decide) (pilThumbnail sampleImg 300 300) (by with_unfolding_all rfl)⟩

/-- C5: for a thumbnail that fits inside the target, `resize` produces a
buffer of exactly the target size whose top-left region is pixel-identical
to the thumbnail and whose added right/bottom pixels are the constant
black value 0. -/
theorem resize_pad_spec (img : PImage) (tw th : ℕ)
    (h1 : img.width ≤ tw) (h2 : img.height ≤ th) :
    (resize img (tw, th)).width = tw ∧ (resize img (tw, th)).height = th ∧
    (∀ x y, x < img.width → y < img.height →
      (resize img (tw, th)).pix x y = img.pix x y) ∧
    (∀ x y, x < tw → y < th → img.width ≤ x ∨ img.height ≤ y →
      (resize img (tw, th)).pix x y = 0) := by
  refine ⟨by simp only [resize, expand]; omega,
          by simp only [resize, expand]; omega, ?_, ?_⟩
  · intro x y hx hy
    simp [resize, expand, hx, hy]
  · intro x y hx hy hc
    simp only [resize, expand]
    rw [if_neg]
    omega

/-- C5, witness: a 2×1 thumbnail padded to 3×2. -/
theorem resize_pad_spec_witness :
    2 ≤ 3 ∧ 1 ≤ 2 ∧
    ((resize ⟨2, 1, fun x y => 5 + x + 10 * y⟩ (3, 2)).width = 3 ∧
     (resize ⟨2, 1, fun x y => 5 + x + 10 * y⟩ (3, 2)).height = 2 ∧
     (∀ x y, x < 2 → y < 1 →
       (resize ⟨2, 1, fun x y => 5 + x + 10 * y⟩ (3, 2)).pix x y = 5 + x + 10 * y) ∧
     (∀ x y, x < 3 → y < 2 → 2 ≤ x ∨ 1 ≤ y →
       (resize ⟨2, 1, fun x y => 5 + x + 10 * y⟩ (3, 2)).pix x y = 0)) :=
  ⟨by decide, by decide,
   resize_pad_spec ⟨2, 1, fun x y => 5 + x + 10 * y⟩ 3 2 (by decide) (by decide)⟩

/-- C6: on a successful `detect` with positive image and tensor
dimensions, the padded image has exactly the tensor dimensions, so
`w_factor = thumbnail_width / padded_width` and
`h_factor = thumbnail_height / padded_height` are ratios of the thumbnail
size to the tensor size, and both lie in `(0, 1]`. -/
theorem detect_scale_factors (img : PImage) (tW tH : ℕ) (raw : RawOutput)
    (top_k : ℕ) (thr : ℚ) (labels : LabelDict) (t p : PImage)
    (dets : List Detection)
    (hiw : 0 < img.width) (hih : 0 < img.height) (htW : 0 < tW) (htH : 0 < tH)
    (h : detect img tW tH raw top_k thr labels = .ok (t, p, dets)) :
    p.width = tW ∧ p.height = tH ∧
    0 < (t.width : ℚ) / (p.width : ℚ) ∧ (t.width : ℚ) / (p.width : ℚ) ≤ 1 ∧
    0 < (t.height : ℚ) / (p.height : ℚ) ∧ (t.height : ℚ) / (p.height : ℚ) ≤ 1 := by
  obtain ⟨ht, hp, -⟩ := detect_ok_inv img tW tH raw top_k thr labels t p dets h
  obtain ⟨a, b, -, -, e, f, -⟩ :=
    thumbnailSize_spec img.width img.height tW tH hiw hih htW htH
  have htw : t.width = (thumbnailSize img.width img.height tW tH).1 := by
    rw [ht, pilThumbnail_width]
  have hth : t.height = (thumbnailSize img.width img.height tW tH).2 := by
    rw [ht, pilThumbnail_height]
  have hpw : p.width = tW := by
    rw [hp]
    simp only [resize, expand]
    rw [← ht, htw]
    omega
  have hph : p.height = tH := by
    rw [hp]
    simp only [resize, expand]
    rw [← ht, hth]
    omega
  have htwpos : (0 : ℚ) < t.width := by
    rw [htw]; exact_mod_cast e
  have hthpos : (0 : ℚ) < t.height := by
    rw [hth]; exact_mod_cast f
  have hpwpos : (0 : ℚ) < p.width := by
    rw [hpw]; exact_mod_cast htW
  have hphpos : (0 : ℚ) < p.height := by
    rw [hph]; exact_mod_cast htH
  refine ⟨hpw, hph, div_pos htwpos hpwpos, ?_, div_pos hthpos hphpos, ?_⟩
  · rw [div_le_one hpwpos]
    rw [htw, hpw]
    exact_mod_cast a
  · rw [div_le_one hphpos]
    rw [hth, hph]
    exact_mod_cast b

/-- C6, witness: the §8 scenario; the padded image is 300×300, the
factors are `300/300 = 1` and `200/300 = 2/3`. -/
theorem detect_scale_factors_witness :
    0 < sampleImg.width ∧ 0 < sampleImg.height ∧ 0 < 300 ∧ 0 < 300 ∧
    ((resize (pilThumbnail sampleImg 300 300) (300, 300)).width = 300 ∧
     (resize (pilThumbnail sampleImg 300 300) (300, 300)).height = 300 ∧
     0 < ((pilThumbnail sampleImg 300 300).width : ℚ) /
           ((resize (pilThumbnail sampleImg 300 300) (300, 300)).width : ℚ) ∧
     ((pilThumbnail sampleImg 300 300).width : ℚ) /
       ((resize (pilThumbnail sampleImg 300 300) (300, 300)).width : ℚ) ≤ 1 ∧
     0 < ((pilThumbnail sampleImg 300 300).height : ℚ) /
           ((resize (pilThumbnail sampleImg 300 300) (300, 300)).height : ℚ) ∧
     ((pilThumbnail sampleImg 300 300).height : ℚ) /
       ((resize (pilThumbnail sampleImg 300 300) (300, 300)).height : ℚ) ≤ 1) :=
  ⟨by decide, by decide, by decide, by decide,
   detect_scale_factors sampleImg 300 300 sampleRaw 2 (1/2) sampleLabels
     (pilThumbnail sampleImg 300 300)
     (resize (pilThumbnail sampleImg 300 300) (300, 300)) sampleDets
     (by decide) (by decide) (by decide) (by decide)
     (by with_unfolding_all rfl)⟩

/-! ## Lemmas about the Python dict model -/

theorem find?_map_update (d : LabelDict) (k : ℕ) (v : List Char) (c : ℤ)
    (hck : c ≠ (k : ℤ)) :
    (d.map (fun p => if p.1 == k then (k, v) else p)).find?
        (fun p => ((p.1 : ℤ) == c)) =
      d.find? (fun p => ((p.1 : ℤ) == c)) := by
  induction d with
  | nil => rfl
  | cons q t ih =>
    by_cases hq : q.1 = k
    · have hmap : (q :: t).map (fun p => if p.1 == k then (k, v) else p) =
          ((k, v) : ℕ × List Char) ::
            t.map (fun p => if p.1 == k then (k, v) else p) := by
        simp [hq]
      rw [hmap]
      have e1 : (((k, v) : ℕ × List Char) ::
            t.map (fun p => if p.1 == k then (k, v) else p)).find?
            (fun p => ((p.1 : ℤ) == c)) =
          (t.map (fun p => if p.1 == k then (k, v) else p)).find?
            (fun p => ((p.1 : ℤ) == c)) :=
        List.find?_cons_of_neg _ (by simp [Ne.symm hck])
      have e2 : (q :: t).find? (fun p => ((p.1 : ℤ) == c)) =
          t.find? (fun p => ((p.1 : ℤ) == c)) :=
        List.find?_cons_of_neg _ (by simp [hq, Ne.symm hck])
      rw [e1, e2]
      exact ih
    · have hmap : (q :: t).map (fun p => if p.1 == k then (k, v) else p) =
          q :: t.map (fun p => if p.1 == k then (k, v) else p) := by
        simp [hq]
      rw [hmap]
      cases hpq : ((q.1 : ℤ) == c) with
      | true =>
        have e1 : (q :: t.map (fun p => if p.1 == k then (k, v) else p)).find?
            (fun p => ((p.1 : ℤ) == c)) = some q :=
          List.find?_cons_of_pos _ hpq
        have e2 : (q :: t).find? (fun p => ((p.1 : ℤ) == c)) = some q :=
          List.find?_cons_of_pos _ hpq
        rw [e1, e2]
      | false =>
        have e1 : (q :: t.map (fun p => if p.1 == k then (k, v) else p)).find?
            (fun p => ((p.1 : ℤ) == c)) =
            (t.map (fun p => if p.1 == k then (k, v) else p)).find?
              (fun p => ((p.1 : ℤ) == c)) :=
          List.find?_cons_of_neg _ (by simp [hpq])
        have e2 : (q :: t).find? (fun p => ((p.1 : ℤ) == c)) =
            t.find? (fun p => ((p.1 : ℤ) == c)) :=
          List.find?_cons_of_neg _ (by simp [hpq])
        rw [e1, e2]
        exact ih

theorem find?_map_update_hit (d : LabelDict) (k : ℕ) (v : List Char)
    (hmem : d.any (fun p => p.1 == k) = true) :
    (d.map (fun p => if p.1 == k then (k, v) else p)).find?
        (fun p => ((p.1 : ℤ) == ((k : ℕ) : ℤ))) = some (k, v) := by
  induction d with
  | nil => simp at hmem
  | cons q t ih =>
    by_cases hq : q.1 = k
    · have hmap : (q :: t).map (fun p => if p.1 == k then (k, v) else p) =
          ((k, v) : ℕ × List Char) ::
            t.map (fun p => if p.1 == k then (k, v) else p) := by
        simp [hq]
      rw [hmap]
      exact List.find?_cons_of_pos _ (by simp)
    · have hmap : (q :: t).map (fun p => if p.1 == k then (k, v) else p) =
          q :: t.map (fun p => if p.1 == k then (k, v) else p) := by
        simp [hq]
      rw [hmap]
      have e1 : (q :: t.map (fun p => if p.1 == k then (k, v) else p)).find?
          (fun p => ((p.1 : ℤ) == ((k : ℕ) : ℤ))) =
          (t.map (fun p => if p.1 == k then (k, v) else p)).find?
            (fun p => ((p.1 : ℤ) == ((k : ℕ) : ℤ))) :=
        List.find?_cons_of_neg _ (by simp [hq])
      rw [e1]
      apply ih
      rcases List.any_eq_true.mp hmem with ⟨p, hp, hpk⟩
      rcases List.mem_cons.mp hp with rfl | hpt
      · exact absurd (by simpa using hpk) hq
      · exact List.any_eq_true.mpr ⟨p, hpt, hpk⟩

theorem dictLookup_insert (d : LabelDict) (k : ℕ) (v : List Char) (c : ℤ) :
    dictLookup (dictInsert d k v) c =
      if c = (k : ℤ) then some v else dictLookup d c := by
  unfold dictInsert dictLookup
  by_cases hmem : d.any (fun p => p.1 == k) = true
  · rw [if_pos hmem]
    by_cases hck : c = (k : ℤ)
    · rw [if_pos hck, hck, find?_map_update_hit d k v hmem]
      rfl
    · rw [if_neg hck, find?_map_update d k v c hck]
  · rw [if_neg hmem, List.find?_append]
    by_cases hck : c = (k : ℤ)
    · rw [if_pos hck]
      have hnone : d.find? (fun p => ((p.1 : ℤ) == c)) = none := by
        rw [List.find?_eq_none]
        intro p hp hpc
        apply hmem
        have hpc' : (p.1 : ℤ) = c := by simpa using hpc
        rw [hck] at hpc'
        have hpk : p.1 = k := by exact_mod_cast hpc'
        exact List.any_eq_true.mpr ⟨p, hp, by simp [hpk]⟩
      rw [hnone]
      have hone : (([(k, v)] : LabelDict).find? fun p => ((p.1 : ℤ) == c)) =
          some (k, v) :=
        List.find?_cons_of_pos _ (by simp [hck])
      rw [hone]
      rfl
    · rw [if_neg hck]
      have hone : (([(k, v)] : LabelDict).find? fun p => ((p.1 : ℤ) == c)) =
          none := by
        rw [List.find?_eq_none]
        intro p hp hpc
        rcases List.mem_cons.mp hp with rfl | h0
        · have : c = ((k : ℕ) : ℤ) := by
            have := (by simpa using hpc : ((k : ℕ) : ℤ) = c)
            exact this.symm
          exact hck this
        · cases h0
      rw [hone, Option.or_none]
/-! ## Claim theorems: label loading (C7, C10) -/

/-- The parsed `(int(num), text.strip())` pairs of the lines that match
the pattern, in file order. -/
def parsedLines (lines : List (List Char)) : List (ℕ × List Char) :=
  lines.filterMap (fun l => (matchLine l).map (fun g => (digitsToNat g.1, pyStrip g.2)))

/-- The binding the *last* well-formed line with a given code establishes. -/
def lastBinding (ps : List (ℕ × List Char)) (c : ℤ) : Option (List Char) :=
  (ps.reverse.find? (fun p => ((p.1 : ℤ) == c))).map (·.2)

theorem loadGo_bad (lines : List (List Char))
    (h : ∃ l ∈ lines, matchLine l = none) :
    ∀ d, loadGo lines d = .error .attributeError := by
  induction lines with
  | nil => rcases h with ⟨l, hl, -⟩; cases hl
  | cons l ls ih =>
    intro d
    rcases h with ⟨l', hl', hnone⟩
    cases hm : matchLine l with
    | none => simp [loadGo, hm]
    | some g =>
      obtain ⟨num, text⟩ := g
      rcases List.mem_cons.mp hl' with rfl | hmem
      · rw [hm] at hnone; cases hnone
      · simp only [loadGo, hm]
        exact ih ⟨l', hmem, hnone⟩ _

theorem loadGo_lookup (lines : List (List Char))
    (h : ∀ l ∈ lines, (matchLine l).isSome) :
    ∀ d, ∃ d', loadGo lines d = .ok d' ∧ ∀ c : ℤ,
      dictLookup d' c = (lastBinding (parsedLines lines) c).or (dictLookup d c) := by
  induction lines with
  | nil =>
    intro d
    refine ⟨d, rfl, fun c => ?_⟩
    simp [parsedLines, lastBinding]
  | cons l ls ih =>
    intro d
    obtain ⟨g, hg⟩ := Option.isSome_iff_exists.mp (h l (List.mem_cons_self l ls))
    obtain ⟨num, text⟩ := g
    have hls : ∀ l' ∈ ls, (matchLine l').isSome :=
      fun l' hl' => h l' (List.mem_cons_of_mem l hl')
    obtain ⟨d', hgo, hlook⟩ :=
      ih hls (dictInsert d (digitsToNat num) (pyStrip text))
    refine ⟨d', by simp only [loadGo, hg]; exact hgo, fun c => ?_⟩
    rw [hlook c, dictLookup_insert]
    have hps : parsedLines (l :: ls) =
        (digitsToNat num, pyStrip text) :: parsedLines ls := by
      simp [parsedLines, hg]
    rw [hps]
    unfold lastBinding
    rw [List.reverse_cons, List.find?_append, Option.map_or']
    cases hfind : (parsedLines ls).reverse.find? (fun p => ((p.1 : ℤ) == c)) with
    | some q => simp [hfind]
    | none =>
      simp only [hfind, Option.map_none', Option.none_or]
      by_cases hck : c = ((digitsToNat num : ℕ) : ℤ)
      · have hone : (([(digitsToNat num, pyStrip text)] : LabelDict).find?
            fun p => ((p.1 : ℤ) == c)) = some (digitsToNat num, pyStrip text) :=
          List.find?_cons_of_pos _ (by simp [hck])
        rw [if_pos hck, hone]
        rfl
      · have hone : (([(digitsToNat num, pyStrip text)] : LabelDict).find?
            fun p => ((p.1 : ℤ) == c)) = none := by
          rw [List.find?_eq_none]
          intro p hp hpc
          rcases List.mem_cons.mp hp with rfl | h0
          · exact hck ((by simpa using hpc : ((digitsToNat num : ℕ) : ℤ) = c)).symm
          · cases h0
        rw [if_neg hck, hone]
        rfl

/-- C7, counterexample to the claim as stated: on a malformed line the
code raises the generic `AttributeError` (from `p.match(line)` returning
`None` and `.groups()` being taken on it), not a dedicated
`FormatError`. -/
theorem load_labels_formaterror_counterexample :
    load_labels [['a', 'b', 'c']] = .error .attributeError ∧
    load_labels [['a', 'b', 'c']] ≠ .error .formatError :=
  ⟨by decide, by decide⟩

/-- C7 (amended): for every label resource containing at least one line
that does not match `\s*(\d+)(.+)`, `load_labels` does fail — but with
the untyped `AttributeError` produced by calling `.groups()` on a failed
match, not with a dedicated format-error exception. -/
theorem load_labels_bad_line_raises (lines : List (List Char))
    (h : ∃ l ∈ lines, matchLine l = none) :
    load_labels lines = .error .attributeError :=
  loadGo_bad lines h []

/-- C7, witness: a resource whose second line is malformed. -/
theorem load_labels_bad_line_raises_witness :
    (∃ l ∈ [['0', ' ', 'c', 'a', 't', '\n'], ['o', 'o', 'p', 's']],
      matchLine l = none) ∧
    load_labels [['0', ' ', 'c', 'a', 't', '\n'], ['o', 'o', 'p', 's']] =
      .error .attributeError :=
  ⟨by decide,
   load_labels_bad_line_raises
     [['0', ' ', 'c', 'a', 't', '\n'], ['o', 'o', 'p', 's']] (by decide)⟩

/-- C10: when every line of the resource matches the pattern,
`load_labels` succeeds and looking up a code returns the trimmed text of
the *last* line carrying that code — later lines overwrite earlier ones,
exactly as successive assignments to one dict key do. -/
theorem load_labels_last_wins (lines : List (List Char))
    (h : ∀ l ∈ lines, (matchLine l).isSome) :
    ∃ d, load_labels lines = .ok d ∧
      ∀ c : ℤ, dictLookup d c = lastBinding (parsedLines lines) c := by
  obtain ⟨d', hgo, hlook⟩ := loadGo_lookup lines h []
  refine ⟨d', hgo, fun c => ?_⟩
  rw [hlook c]
  have hempty : dictLookup [] c = none := rfl
  rw [hempty, Option.or_none]

/-- C10, witness: two well-formed lines with the same code `3`; the map
binds `3` to `"dog"`, the trimmed text of the last one. -/
theorem load_labels_last_wins_witness :
    (∀ l ∈ [['3', ' ', 'c', 'a', 't', '\n'], ['3', ' ', 'd', 'o', 'g', '\n']],
      (matchLine l).isSome) ∧
    (∃ d, load_labels [['3', ' ', 'c', 'a', 't', '\n'],
        ['3', ' ', 'd', 'o', 'g', '\n']] = .ok d ∧
      ∀ c : ℤ, dictLookup d c =
        lastBinding (parsedLines [['3', ' ', 'c', 'a', 't', '\n'],
          ['3', ' ', 'd', 'o', 'g', '\n']]) c) :=
  ⟨by decide,
   load_labels_last_wins
     [['3', ' ', 'c', 'a', 't', '\n'], ['3', ' ', 'd', 'o', 'g', '\n']]
     (by decide)⟩

/-! ## Claim theorems: desired-size normalization (C8) -/

/-- C8, counterexample to the claim as stated: when only the *height*
arrives as a numpy scalar (the width being a plain int), `thumbnail` does
not normalize it — the numpy value flows through unconverted, because the
code only tests `isinstance(w, np.generic)`. -/
theorem thumbnail_no_normalize_counterexample :
    normalizeDims (.pyint 300) (.npgeneric 300) =
      .ok (.pyint 300, .npgeneric 300) ∧
    (PyNum.npgeneric 300).typeOf ≠ PyType.pyInt :=
  ⟨rfl, by decide⟩

/-- C8 (amended): the conversion runs only when the width is a numpy
scalar.  Then: if the height is also numpy, both become plain ints; if
the height is already a plain int, `h.item()` raises and `thumbnail`
fails with a `RuntimeError` that carries the offending desired size and
the declared types of both dimensions (observable by the caller).  When
the width is a plain int, both dimensions pass through unchanged — a
foreign height is not normalized. -/
theorem thumbnail_normalize_spec (img : PImage) (v u : ℤ) (h : PyNum) :
    thumbnail img (.npgeneric v) (.npgeneric u) =
      .ok (pilThumbnail img v.toNat u.toNat) ∧
    thumbnail img (.pyint v) h = .ok (pilThumbnail img v.toNat h.val.toNat) ∧
    thumbnail img (.npgeneric v) (.pyint u) =
      .error (.runtimeError (.npgeneric v, .pyint u) .pyInt .pyInt) :=
  ⟨rfl, rfl, rfl⟩

end Ambianic
